import Mathlib

/-!
Shallow embedding of the key-derivation and metadata-parsing core of the
`luniix` repository (files `src/luniix/aes_keys.py`, `src/luniix/constants.py`
and `src/luniix/devices.py`), together with theorems settling the frozen
claims about it.

Bytes are modelled as `Nat` values and byte strings as `List Nat`; fallible
Python code (exceptions) is modelled with `Option` / `Except`; the file
object of `devices.py` is modelled as the list of its bytes, with
`fp.read(n)` after a `seek(p)` modelled as `readAt file p n` (reading past
the end yields a short or empty result, exactly as Python's `read` does).
-/

/-- One byte of a metadata or key file: a natural number (values < 256 in
actual files; none of the embedded operations depend on that bound). -/
abbrev Byte := Nat

/-- The group reversal at the heart of `aes_keys.reverse_bytes`: the buffer is
split into consecutive groups of (at most) 4 bytes and each group is reversed
in place (`group[::-1]` applied to every slice `input_bytes[i:i+4]`). -/
def rev_groups : List Byte → List Byte
  | a :: b :: c :: d :: rest => d :: c :: b :: a :: rev_groups rest
  | l => l.reverse

/-- Embedding of `aes_keys.reverse_bytes`: raises `ValueError` (modelled as
`none`) when the length is not a multiple of 4, otherwise reverses each
4-byte group. -/
def reverse_bytes (input_bytes : List Byte) : Option (List Byte) :=
  if input_bytes.length % 4 ≠ 0 then none
  else some (rev_groups input_bytes)

/-- Errors raised by `aes_keys.fetch_keys`: `FileNotFoundError` when the key
file is absent, and the `ValueError` propagated out of `reverse_bytes`. -/
inductive KeysError where
  | fileNotFound
  | invalidLength
  deriving DecidableEq, Repr

/-- Embedding of `aes_keys.fetch_keys`. The filesystem is abstracted to the
optional content of the key file: `none` when `keyfile.is_file()` is false,
`some content` otherwise. `fk.read(0x10)` returns the first
`min 16 content.length` bytes, the second `read(0x10)` the next sixteen
(or whatever remains). Each read is passed through `reverse_bytes`, whose
`ValueError` propagates. -/
def fetch_keys (keyfile : Option (List Byte)) : Except KeysError (List Byte × List Byte) :=
  match keyfile with
  | none => .error .fileNotFound
  | some content =>
    match reverse_bytes (content.take 16) with
    | none => .error .invalidLength
    | some key =>
      match reverse_bytes ((content.drop 16).take 16) with
      | none => .error .invalidLength
      | some iv => .ok (key, iv)

/-- Embedding of Python's `int.from_bytes(bs, "little")`. -/
def int_from_bytes_le (bs : List Byte) : Nat :=
  bs.foldr (fun b acc => b + 256 * acc) 0

/-- Embedding of Python's `int.from_bytes(bs)` with the default big byte
order (used for the one-byte sub-version read of `__md6toN_parse`). -/
def int_from_bytes_be (bs : List Byte) : Nat :=
  bs.foldl (fun acc b => 256 * acc + b) 0

/-- Embedding of `constants.lunii_tea_rounds`:
`int(1 + 52 / (len(buffer) / 4))`. Python's `/` is exact real division here
(the float rounding cannot move the truncated result across an integer for
any buffer length, since `len/4` is exact and `52/(len/4) = 208/len` is never
within a representable error of a different integer), so it is modelled over
`ℚ`; `int()` truncates, which for this nonnegative value is the floor. A
zero-length buffer makes Python raise `ZeroDivisionError`, modelled as
`none`. -/
def lunii_tea_rounds (buffer : List Byte) : Option Int :=
  if buffer.length = 0 then none
  else some ⌊(1 : ℚ) + 52 / ((buffer.length : ℚ) / 4)⌋

/-- The four outcomes of the version dispatch of `Device._parse_metadata`:
one of the three generation parsers, or the `RuntimeError` raised for an
unsupported version. -/
inductive MdRoute where
  | gen6plus
  | gen1to5
  | gen1
  | unsupported (version : Nat)
  deriving DecidableEq, Repr

/-- Embedding of the dispatch of `Device._parse_metadata`: the first two
bytes of the metadata file are read as a little-endian version, then
`if md_version >= 6: __md6toN_parse / elif md_version >= 1: __md1to5_parse /
elif md_version == 1: __md1_parse / else: raise RuntimeError`, transcribed
branch for branch (including the unreachable `== 1` branch). -/
def parse_metadata_route (file : List Byte) : MdRoute :=
  let md_version := int_from_bytes_le (file.take 2)
  if md_version ≥ 6 then .gen6plus
  else if md_version ≥ 1 then .gen1to5
  else if md_version = 1 then .gen1
  else .unsupported md_version

/-- Embedding of the key reordering of `Device.__md1to5_parse`: from the
decrypted `0x100`-byte block `dec`, `self.device_key = dec[8:16] + dec[0:8]`. -/
def device_key_md1to5 (dec : List Byte) : List Byte :=
  ((dec.drop 8).take 8) ++ (dec.take 8)

/-- ASCII code of the lowercase hex digit of a value < 16
(`0`-`9` are codes 48-57, `a`-`f` are codes 97-102). -/
def hex_digit (v : Nat) : Byte :=
  if v < 10 then 48 + v else 87 + v

/-- Embedding of `binascii.hexlify`: each byte becomes two lowercase ASCII
hex characters. -/
def hexlify (bs : List Byte) : List Byte :=
  (bs.map (fun v => [hex_digit (v / 16), hex_digit (v % 16)])).flatten

/-- Value of an ASCII hex character, `none` for a non-hex character. -/
def hex_val (c : Byte) : Option Nat :=
  if 48 ≤ c ∧ c ≤ 57 then some (c - 48)
  else if 97 ≤ c ∧ c ≤ 102 then some (c - 87)
  else if 65 ≤ c ∧ c ≤ 70 then some (c - 55)
  else none

/-- Embedding of `binascii.unhexlify` (as applied to the decoded SNU string):
pairs of ASCII hex characters become bytes; an odd-length string or a
non-hex character raises (`none`). A decode failure of the preceding
`.decode("utf-8")` is subsumed, since a non-ASCII byte is not a hex
character either. -/
def unhexlify : List Byte → Option (List Byte)
  | [] => some []
  | [_] => none
  | c1 :: c2 :: rest =>
    match hex_val c1, hex_val c2, unhexlify rest with
    | some h, some l, some r => some ((16 * h + l) :: r)
    | _, _, _ => none

/-- ASCII uppercasing of one character, as `str.upper()` acts on ASCII. -/
def upper_ascii (c : Byte) : Byte :=
  if 97 ≤ c ∧ c ≤ 122 then c - 32 else c

/-- Embedding of the property `Device.snu_str`:
`self.snu.hex().upper().lstrip("0")`, i.e. the uppercase ASCII hex string of
the serial-number bytes with every leading `0` character removed (as a list
of ASCII codes). -/
def snu_str (snu : List Byte) : List Byte :=
  ((hexlify snu).map upper_ascii).dropWhile (fun c => c = 48)

/-- Name of the external key file looked up by `Device.__md6toN_parse`
(relative to the configuration directory): `f"{self.snu_str}.keys"`, as a
list of ASCII codes (`.keys` is `[46, 107, 101, 121, 115]`). -/
def dev_keyfile_name (snu : List Byte) : List Byte :=
  snu_str snu ++ [46, 107, 101, 121, 115]

/-- Embedding of `constants.DeviceType`. -/
inductive DeviceType where
  | UNKNOWN
  | LUNII_V1or2
  | LUNII_V1
  | LUNII_V2
  | LUNII_V3
  | FLAM_V1
  deriving DecidableEq, Repr

/-- The fields of a `Device` populated by `Device.__md6toN_parse`. The
firmware fields are `Int` because Python subtracts `0x30` from an unsigned
byte. -/
structure Md6Result where
  device_type : DeviceType
  fw_vers_major : Int
  fw_vers_minor : Int
  fw_vers_subminor : Int
  snu : List Byte
  story_key : List Byte
  story_iv : List Byte
  bt : List Byte
  device_key : List Byte
  device_iv : List Byte
  deriving DecidableEq, Repr

/-- The bytes `fp.read(n)` returns when the cursor is at `pos`: the slice
`file[pos : pos+n]`, possibly short or empty at end of file. Because a short
read only happens at end of file and every later read then returns empty in
both models, chaining `readAt` at the nominal offsets is exactly equivalent
to Python's cursor semantics for the seek/read patterns of `devices.py`. -/
def readAt (file : List Byte) (pos n : Nat) : List Byte :=
  (file.drop pos).take n

/-- Embedding of `Device.__md6toN_parse`. The metadata file is the byte list
`file`; `keyfile` is the optional content of the external key file
`CFG_DIR / f"{snu_str}.keys"` (see `dev_keyfile_name`), `none` when absent.
Reads follow the source: the 1-byte sub-version at offset 0, firmware
digits at offsets 2/4/6 (each minus `0x30`), the 14-character ASCII-hex SNU
at offset `0x1A` (unhexlified), then at offset `0x40` either (sub-version 6)
a `0x20`-byte `bt` read plus story key/iv forged from the SNU, or
(otherwise) two 16-byte reads byte-reversed into story key/iv plus a `bt`
forged from the SNU. Finally `fetch_keys` is attempted; only its
`FileNotFoundError` is caught (leaving `device_key`/`device_iv` empty), any
other error propagates (`none`). -/
def md6toN_parse (file : List Byte) (keyfile : Option (List Byte)) : Option Md6Result :=
  let md_vers := int_from_bytes_be (readAt file 0 1)
  let fw_vers_major : Int := (int_from_bytes_le (readAt file 2 1) : Int) - 0x30
  let fw_vers_minor : Int := (int_from_bytes_le (readAt file 4 1) : Int) - 0x30
  let fw_vers_subminor : Int := (int_from_bytes_le (readAt file 6 1) : Int) - 0x30
  match unhexlify (readAt file 0x1A 14) with
  | none => none
  | some snu =>
    let forged : Option (List Byte × List Byte × List Byte) :=
      if md_vers = 6 then
        let bt := readAt file 0x40 0x20
        match reverse_bytes (hexlify snu ++ [0, 0]),
              reverse_bytes (List.replicate 8 0 ++ (hexlify snu).take 8) with
        | some sk, some siv => some (sk, siv, bt)
        | _, _ => none
      else
        match reverse_bytes (readAt file 0x40 0x10),
              reverse_bytes (readAt file 0x50 0x10) with
        | some sk, some siv =>
          some (sk, siv, hexlify snu ++ List.replicate 10 0 ++ (hexlify snu).take 8)
        | _, _ => none
    match forged with
    | none => none
    | some (sk, siv, bt) =>
      match fetch_keys keyfile with
      | .ok (k, i) =>
        some ⟨.LUNII_V3, fw_vers_major, fw_vers_minor, fw_vers_subminor,
              snu, sk, siv, bt, k, i⟩
      | .error .fileNotFound =>
        some ⟨.LUNII_V3, fw_vers_major, fw_vers_minor, fw_vers_subminor,
              snu, sk, siv, bt, [], []⟩
      | .error .invalidLength => none

/-- A concrete version-6 metadata file (sub-version byte 6, ASCII `0`
everywhere else, `0x60` bytes long): its SNU field at `0x1A` is the hex
string `00000000000000`. Used as a test vector. -/
def mdfile_v6 : List Byte := 6 :: List.replicate 0x5F 48

/-- A concrete version-7 metadata file, like `mdfile_v6` but with
sub-version byte 7. -/
def mdfile_v7 : List Byte := 7 :: List.replicate 0x5F 48

/-- A concrete version-9 metadata file, like `mdfile_v6` but with
sub-version byte 9. -/
def mdfile_v9 : List Byte := 9 :: List.replicate 0x5F 48

/-! ### Helper lemmas -/

theorem rev_groups_length : ∀ l : List Byte, (rev_groups l).length = l.length
  | [] => rfl
  | [_] => rfl
  | [_, _] => rfl
  | [_, _, _] => rfl
  | a :: b :: c :: d :: rest => by
    simp only [rev_groups, List.length_cons]
    rw [rev_groups_length rest]

theorem rev_groups_rev_groups :
    ∀ l : List Byte, l.length % 4 = 0 → rev_groups (rev_groups l) = l
  | [], _ => rfl
  | [_], h => by simp at h
  | [_, _], h => by simp at h
  | [_, _, _], h => by simp at h
  | a :: b :: c :: d :: rest, h => by
    have hr : rest.length % 4 = 0 := by
      simp only [List.length_cons] at h
      omega
    simp only [rev_groups]
    rw [rev_groups_rev_groups rest hr]

theorem reverse_bytes_of_mod (l : List Byte) (h : l.length % 4 = 0) :
    reverse_bytes l = some (rev_groups l) := by
  simp [reverse_bytes, h]

theorem reverse_bytes_of_not_mod (l : List Byte) (h : ¬ l.length % 4 = 0) :
    reverse_bytes l = none := by
  simp [reverse_bytes, h]

/-! ### Claim theorems -/

/-- C7: `reverse_bytes` (ByteReversal) is an involution: for every buffer
whose length is a multiple of 4, applying the 4-byte-group reversal twice
returns a buffer equal to the original. -/
theorem reverse_bytes_involution (l : List Byte) (h : l.length % 4 = 0) :
    (reverse_bytes l).bind reverse_bytes = some l := by
  rw [reverse_bytes_of_mod l h, Option.some_bind]
  have hlen : (rev_groups l).length % 4 = 0 := by
    rw [rev_groups_length]; exact h
  rw [reverse_bytes_of_mod _ hlen, rev_groups_rev_groups l h]

/-- Witness for C7 at the concrete 8-byte buffer `[1, …, 8]`. -/
theorem reverse_bytes_involution_witness :
    ([1, 2, 3, 4, 5, 6, 7, 8] : List Byte).length % 4 = 0 ∧
    (reverse_bytes [1, 2, 3, 4, 5, 6, 7, 8]).bind reverse_bytes =
      some [1, 2, 3, 4, 5, 6, 7, 8] :=
  ⟨by decide, reverse_bytes_involution [1, 2, 3, 4, 5, 6, 7, 8] (by decide)⟩

/-- C8: `reverse_bytes` (ByteReversal) fails with the `InvalidLength` error
(`ValueError`, modelled `none`) exactly for buffers whose length is not a
multiple of 4, and succeeds for every buffer whose length is a multiple
of 4; in particular it fails at lengths 5 and 15. -/
theorem reverse_bytes_length_check (l : List Byte) :
    (reverse_bytes l = none ↔ ¬ l.length % 4 = 0) ∧
    ((∃ r, reverse_bytes l = some r) ↔ l.length % 4 = 0) := by
  by_cases h : l.length % 4 = 0
  · exact ⟨by simp [reverse_bytes_of_mod l h, h], by simp [reverse_bytes_of_mod l h, h]⟩
  · exact ⟨by simp [reverse_bytes_of_not_mod l h, h], by simp [reverse_bytes_of_not_mod l h, h]⟩

/-- C2: the `Generation1to5Parser` device key is the reordering
`D[8:16] ++ D[0:8]` of the decrypted bytes `D`, and it equals the raw prefix
`D[0:16]` exactly when the two 8-byte halves coincide. -/
theorem md1to5_device_key_reordering (D : List Byte) (h : 16 ≤ D.length) :
    device_key_md1to5 D = (D.drop 8).take 8 ++ D.take 8 ∧
    (device_key_md1to5 D = D.take 16 ↔ D.take 8 = (D.drop 8).take 8) := by
  refine ⟨rfl, ?_⟩
  have htake : D.take 16 = D.take 8 ++ (D.drop 8).take 8 := by
    have h16 : (16 : ℕ) = 8 + 8 := rfl
    rw [h16, List.take_add]
  constructor
  · intro he
    rw [htake] at he
    have hlen : ((D.drop 8).take 8).length = (D.take 8).length := by
      simp only [List.length_take, List.length_drop]
      omega
    exact ((List.append_inj he hlen).1).symm
  · intro he
    rw [htake, device_key_md1to5, ← he]

/-- Witness for C2 at the concrete 16-byte buffer `[0, …, 15]`. -/
theorem md1to5_device_key_reordering_witness :
    16 ≤ ([0, 1, 2, 3, 4, 5, 6, 7, 8, 9, 10, 11, 12, 13, 14, 15] : List Byte).length ∧
    (device_key_md1to5 [0, 1, 2, 3, 4, 5, 6, 7, 8, 9, 10, 11, 12, 13, 14, 15] =
        (([0, 1, 2, 3, 4, 5, 6, 7, 8, 9, 10, 11, 12, 13, 14, 15] : List Byte).drop 8).take 8 ++
          ([0, 1, 2, 3, 4, 5, 6, 7, 8, 9, 10, 11, 12, 13, 14, 15] : List Byte).take 8 ∧
      (device_key_md1to5 [0, 1, 2, 3, 4, 5, 6, 7, 8, 9, 10, 11, 12, 13, 14, 15] =
          ([0, 1, 2, 3, 4, 5, 6, 7, 8, 9, 10, 11, 12, 13, 14, 15] : List Byte).take 16 ↔
        ([0, 1, 2, 3, 4, 5, 6, 7, 8, 9, 10, 11, 12, 13, 14, 15] : List Byte).take 8 =
          (([0, 1, 2, 3, 4, 5, 6, 7, 8, 9, 10, 11, 12, 13, 14, 15] : List Byte).drop 8).take 8)) :=
  ⟨by decide,
    md1to5_device_key_reordering [0, 1, 2, 3, 4, 5, 6, 7, 8, 9, 10, 11, 12, 13, 14, 15] (by decide)⟩

/-- C1 (evaluation at the failing input): the dispatch of
`Device._parse_metadata` sends version 0 to the `RuntimeError`
(`UnsupportedMetadataVersion`) branch, versions 1-5 to `__md1to5_parse`,
versions ≥ 6 to `__md6toN_parse`, and — because the `== 1` test is shadowed
by the preceding `>= 1` test — never routes any file to `__md1_parse`: every
file goes to `gen6plus`, to `gen1to5`, or (exactly when the version is 0) to
the unsupported-version error. -/
theorem parse_metadata_route_spec :
    parse_metadata_route [0, 0] = MdRoute.unsupported 0 ∧
    parse_metadata_route [1, 0] = MdRoute.gen1to5 ∧
    parse_metadata_route [5, 0] = MdRoute.gen1to5 ∧
    parse_metadata_route [6, 0] = MdRoute.gen6plus ∧
    parse_metadata_route [0, 1] = MdRoute.gen6plus ∧
    ∀ file : List Byte,
      parse_metadata_route file = MdRoute.gen6plus ∨
      parse_metadata_route file = MdRoute.gen1to5 ∨
      parse_metadata_route file = MdRoute.unsupported 0 := by
  refine ⟨by decide, by decide, by decide, by decide, by decide, ?_⟩
  intro file
  unfold parse_metadata_route
  by_cases h6 : 6 ≤ int_from_bytes_le (file.take 2)
  · left; simp [h6]
  · by_cases h1 : 1 ≤ int_from_bytes_le (file.take 2)
    · right; left; simp [h6, h1]
    · right; right
      have h0 : int_from_bytes_le (file.take 2) = 0 := by omega
      simp [h6, h1, h0]

/-- C6: for a buffer of positive length `4 * k`, the round count of
`lunii_tea_rounds` is `1 + ⌊52 / k⌋` where `k` is the length in 32-bit
words. -/
theorem lunii_tea_rounds_formula (buffer : List Byte) (k : Nat)
    (hk : buffer.length = 4 * k) (hpos : 0 < k) :
    lunii_tea_rounds buffer = some ((1 : Int) + (52 / k : Nat)) := by
  have hne : ¬ buffer.length = 0 := by omega
  rw [lunii_tea_rounds, if_neg hne]
  congr 1
  have hq : ((buffer.length : ℚ) / 4) = (k : ℚ) := by
    rw [hk]; push_cast; ring
  rw [hq]
  have h52 : ⌊(52 : ℚ) / (k : ℚ)⌋ = ((52 / k : ℕ) : ℤ) := by
    have hnn : (0 : ℚ) ≤ 52 / (k : ℚ) := by positivity
    rw [← Int.natCast_floor_eq_floor hnn, Nat.floor_div_nat]
    norm_num
  rw [show (1 : ℚ) + 52 / (k : ℚ) = ((1 : ℤ) : ℚ) + 52 / (k : ℚ) by norm_num,
      Int.floor_int_add, h52]

/-- Witness for C6: a `0x100`-byte buffer (64 words) gives 1 round, a
`0x40`-byte buffer (16 words) gives 4 rounds. -/
theorem lunii_tea_rounds_formula_witness :
    (List.replicate 0x100 0 : List Byte).length = 4 * 64 ∧ 0 < 64 ∧
    lunii_tea_rounds (List.replicate 0x100 0) = some 1 ∧
    (List.replicate 0x40 0 : List Byte).length = 4 * 16 ∧ 0 < 16 ∧
    lunii_tea_rounds (List.replicate 0x40 0) = some 4 := by
  refine ⟨by rw [List.length_replicate], by decide, ?_, by rw [List.length_replicate], by decide, ?_⟩
  · have h := lunii_tea_rounds_formula (List.replicate 0x100 0) 64 (by rw [List.length_replicate]) (by decide)
    norm_num at h
    exact h
  · have h := lunii_tea_rounds_formula (List.replicate 0x40 0) 16 (by rw [List.length_replicate]) (by decide)
    norm_num at h
    exact h

/-- C9: the round-count computation fails (Python `ZeroDivisionError`) on the
empty buffer and returns a positive integer for every buffer of positive
length, so under the precondition that the ciphered region read is non-empty
the error branch is unreachable. -/
theorem lunii_tea_rounds_total_behavior (buffer : List Byte) :
    (buffer.length = 0 → lunii_tea_rounds buffer = none) ∧
    (0 < buffer.length → ∃ m : Int, lunii_tea_rounds buffer = some m ∧ 0 < m) := by
  constructor
  · intro h
    simp [lunii_tea_rounds, h]
  · intro h
    have hne : ¬ buffer.length = 0 := by omega
    refine ⟨⌊(1 : ℚ) + 52 / ((buffer.length : ℚ) / 4)⌋, by rw [lunii_tea_rounds, if_neg hne], ?_⟩
    have hx : (1 : ℚ) ≤ (1 : ℚ) + 52 / ((buffer.length : ℚ) / 4) := by
      have hnn : (0 : ℚ) ≤ 52 / ((buffer.length : ℚ) / 4) := by positivity
      linarith
    have h1 : (1 : ℤ) ≤ ⌊(1 : ℚ) + 52 / ((buffer.length : ℚ) / 4)⌋ :=
      Int.le_floor.mpr (by exact_mod_cast hx)
    omega

/-- Witness for C9: the empty buffer fails, a 2-byte buffer yields a positive
round count. -/
theorem lunii_tea_rounds_total_behavior_witness :
    lunii_tea_rounds [] = none ∧
    0 < ([1, 2] : List Byte).length ∧
    (∃ m : Int, lunii_tea_rounds [1, 2] = some m ∧ 0 < m) :=
  ⟨(lunii_tea_rounds_total_behavior []).1 rfl,
    by decide, (lunii_tea_rounds_total_behavior [1, 2]).2 (by decide)⟩

/-- C5 counterexample: a present key file of only 20 bytes does NOT fail
with a short-read error — `fetch_keys` succeeds and returns a full 16-byte
key together with a truncated 4-byte iv. -/
theorem fetch_keys_short_succeeds_counterexample :
    (List.replicate 20 7 : List Byte).length < 32 ∧
    fetch_keys (some (List.replicate 20 7)) =
      Except.ok (List.replicate 16 7, List.replicate 4 7) :=
  ⟨by decide, by rfl⟩

/-- C5 (amended): for an existing key file with fewer than 32 bytes there is
no short-read check; loading fails (with the `InvalidLength` error of
`reverse_bytes`) exactly when the file length is not a multiple of 4, and
otherwise succeeds, returning truncated key/iv material (the key holds
`min 16 n` bytes and the iv `n - 16` bytes for an `n`-byte file). -/
theorem fetch_keys_short_file_amended (content : List Byte) (h : content.length < 32) :
    (content.length % 4 = 0 →
      ∃ key iv, fetch_keys (some content) = Except.ok (key, iv) ∧
        key.length = min 16 content.length ∧ iv.length = content.length - 16) ∧
    (content.length % 4 ≠ 0 →
      fetch_keys (some content) = Except.error KeysError.invalidLength) := by
  have hA : (content.take 16).length = min 16 content.length := List.length_take 16 content
  have hB : ((content.drop 16).take 16).length = content.length - 16 := by
    simp only [List.length_take, List.length_drop]
    omega
  constructor
  · intro hm
    have hA4 : (content.take 16).length % 4 = 0 := by rw [hA]; omega
    have hB4 : ((content.drop 16).take 16).length % 4 = 0 := by rw [hB]; omega
    refine ⟨rev_groups (content.take 16), rev_groups ((content.drop 16).take 16), ?_, ?_, ?_⟩
    · simp only [fetch_keys, reverse_bytes_of_mod _ hA4, reverse_bytes_of_mod _ hB4]
    · rw [rev_groups_length, hA]
    · rw [rev_groups_length, hB]
  · intro hm
    by_cases hle : content.length ≤ 16
    · have hA4 : ¬ (content.take 16).length % 4 = 0 := by rw [hA]; omega
      simp only [fetch_keys, reverse_bytes_of_not_mod _ hA4]
    · have hA4 : (content.take 16).length % 4 = 0 := by rw [hA]; omega
      have hB4 : ¬ ((content.drop 16).take 16).length % 4 = 0 := by rw [hB]; omega
      simp only [fetch_keys, reverse_bytes_of_mod _ hA4, reverse_bytes_of_not_mod _ hB4]

/-- Witness for the amended C5: a 20-byte file loads successfully with a
truncated 4-byte iv, a 17-byte file fails with `InvalidLength`. -/
theorem fetch_keys_short_file_amended_witness :
    (List.replicate 20 7 : List Byte).length < 32 ∧
    (List.replicate 20 7 : List Byte).length % 4 = 0 ∧
    (∃ key iv, fetch_keys (some (List.replicate 20 7)) = Except.ok (key, iv) ∧
      key.length = min 16 (List.replicate 20 7 : List Byte).length ∧
      iv.length = (List.replicate 20 7 : List Byte).length - 16) ∧
    (List.replicate 17 7 : List Byte).length < 32 ∧
    (List.replicate 17 7 : List Byte).length % 4 = 1 ∧
    fetch_keys (some (List.replicate 17 7)) = Except.error KeysError.invalidLength :=
  ⟨by decide, by decide,
    (fetch_keys_short_file_amended (List.replicate 20 7) (by decide)).1 (by decide),
    by decide, by decide,
    (fetch_keys_short_file_amended (List.replicate 17 7) (by decide)).2 (by decide)⟩

theorem md6toN_parse_marker6 (file : List Byte) (keyfile : Option (List Byte))
    (snu : List Byte) (r : Md6Result)
    (hsnu : unhexlify (readAt file 0x1A 14) = some snu)
    (hm : int_from_bytes_be (readAt file 0 1) = 6)
    (hr : md6toN_parse file keyfile = some r) :
    reverse_bytes (hexlify snu ++ [0, 0]) = some r.story_key ∧
    reverse_bytes (List.replicate 8 0 ++ (hexlify snu).take 8) = some r.story_iv ∧
    r.bt = readAt file 0x40 0x20 := by
  unfold md6toN_parse at hr
  rw [hsnu, hm] at hr
  simp only [if_pos] at hr
  rcases hb1 : reverse_bytes (hexlify snu ++ [0, 0]) with _ | sk
  · rw [hb1] at hr
    simp at hr
  · rcases hb2 : reverse_bytes (List.replicate 8 0 ++ (hexlify snu).take 8) with _ | siv
    · rw [hb1, hb2] at hr
      simp at hr
    · rw [hb1, hb2] at hr
      simp only [] at hr
      rcases hfk : fetch_keys keyfile with e | ⟨k, i⟩
      · cases e <;> rw [hfk] at hr <;> simp at hr
        subst hr
        exact ⟨rfl, rfl, rfl⟩
      · rw [hfk] at hr
        simp at hr
        subst hr
        exact ⟨rfl, rfl, rfl⟩

theorem md6toN_parse_marker_ne6 (file : List Byte) (keyfile : Option (List Byte))
    (snu : List Byte) (r : Md6Result)
    (hsnu : unhexlify (readAt file 0x1A 14) = some snu)
    (hm : ¬ int_from_bytes_be (readAt file 0 1) = 6)
    (hr : md6toN_parse file keyfile = some r) :
    reverse_bytes (readAt file 0x40 0x10) = some r.story_key ∧
    reverse_bytes (readAt file 0x50 0x10) = some r.story_iv ∧
    r.bt = hexlify snu ++ List.replicate 10 0 ++ (hexlify snu).take 8 := by
  unfold md6toN_parse at hr
  rw [hsnu] at hr
  simp only [] at hr
  rw [if_neg hm] at hr
  rcases hb1 : reverse_bytes (readAt file 0x40 0x10) with _ | sk
  · rw [hb1] at hr
    simp at hr
  · rcases hb2 : reverse_bytes (readAt file 0x50 0x10) with _ | siv
    · rw [hb1, hb2] at hr
      simp at hr
    · rw [hb1, hb2] at hr
      simp only [] at hr
      rcases hfk : fetch_keys keyfile with e | ⟨k, i⟩
      · cases e <;> rw [hfk] at hr <;> simp at hr
        subst hr
        refine ⟨rfl, rfl, ?_⟩
        simp [List.replicate]
      · rw [hfk] at hr
        simp at hr
        subst hr
        refine ⟨rfl, rfl, ?_⟩
        simp [List.replicate]

theorem md6toN_parse_no_keyfile (file : List Byte) (r : Md6Result)
    (hr : md6toN_parse file none = some r) :
    r.device_key = [] ∧ r.device_iv = [] := by
  unfold md6toN_parse at hr
  rcases hsnu : unhexlify (readAt file 0x1A 14) with _ | snu
  · rw [hsnu] at hr
    simp at hr
  · rw [hsnu] at hr
    simp only [fetch_keys] at hr
    split at hr
    · simp at hr
    · simp only [Option.some.injEq] at hr
      subst hr
      exact ⟨rfl, rfl⟩

theorem hexlify_replicate_zero (n : Nat) :
    hexlify (List.replicate n 0) = List.replicate (2 * n) 48 := by
  induction n with
  | zero => rfl
  | succ m ih =>
    rw [List.replicate_succ]
    show 48 :: 48 :: hexlify (List.replicate m 0) = List.replicate (2 * (m + 1)) 48
    rw [ih, show 2 * (m + 1) = 2 * m + 1 + 1 by ring, List.replicate_succ,
        List.replicate_succ]

theorem dropWhile_eq48_replicate :
    ∀ m : Nat, (List.replicate m (48 : Byte)).dropWhile (fun c => c = 48) = []
  | 0 => rfl
  | m + 1 => by
    rw [List.replicate_succ, List.dropWhile_cons]
    simp [dropWhile_eq48_replicate m]

/-- C3: in `Device.__md6toN_parse`, when the 1-byte sub-version marker is 6
the story key is the ByteReversal of the ASCII-hex of the 7-byte serial
number followed by two zero bytes and the story iv is the ByteReversal of
eight zero bytes followed by the first 8 ASCII-hex characters of the serial;
when the marker is ≥ 7 the story key and iv are ByteReversals of the two
consecutive 16-byte reads at offset `0x40`, and the synthetic token `bt` is
the ASCII-hex of the serial, ten zero bytes, then its first 8 ASCII-hex
characters. -/
theorem md6toN_story_key_forging (file : List Byte) (keyfile : Option (List Byte))
    (snu : List Byte)
    (hsnu : unhexlify (readAt file 0x1A 14) = some snu)
    (hsome : (md6toN_parse file keyfile).isSome) :
    (int_from_bytes_be (readAt file 0 1) = 6 →
      Option.map Md6Result.story_key (md6toN_parse file keyfile) =
        reverse_bytes (hexlify snu ++ [0, 0]) ∧
      Option.map Md6Result.story_iv (md6toN_parse file keyfile) =
        reverse_bytes (List.replicate 8 0 ++ (hexlify snu).take 8)) ∧
    (7 ≤ int_from_bytes_be (readAt file 0 1) →
      Option.map Md6Result.story_key (md6toN_parse file keyfile) =
        reverse_bytes (readAt file 0x40 0x10) ∧
      Option.map Md6Result.story_iv (md6toN_parse file keyfile) =
        reverse_bytes (readAt file 0x50 0x10) ∧
      Option.map Md6Result.bt (md6toN_parse file keyfile) =
        some (hexlify snu ++ List.replicate 10 0 ++ (hexlify snu).take 8)) := by
  obtain ⟨r, hr⟩ := Option.isSome_iff_exists.mp hsome
  constructor
  · intro hm
    obtain ⟨h1, h2, _⟩ := md6toN_parse_marker6 file keyfile snu r hsnu hm hr
    rw [hr, h1, h2]
    exact ⟨rfl, rfl⟩
  · intro hm7
    have hmne : ¬ int_from_bytes_be (readAt file 0 1) = 6 := by omega
    obtain ⟨h1, h2, h3⟩ := md6toN_parse_marker_ne6 file keyfile snu r hsnu hmne hr
    rw [hr, h1, h2]
    refine ⟨rfl, rfl, ?_⟩
    rw [← h3]
    rfl

/-- Witness for C3 at the concrete metadata files `mdfile_v6` (marker 6) and
`mdfile_v7` (marker 7), both with the all-zero 7-byte serial number. -/
theorem md6toN_story_key_forging_witness :
    int_from_bytes_be (readAt mdfile_v6 0 1) = 6 ∧
    (Option.map Md6Result.story_key (md6toN_parse mdfile_v6 none) =
        reverse_bytes (hexlify (List.replicate 7 0) ++ [0, 0]) ∧
      Option.map Md6Result.story_iv (md6toN_parse mdfile_v6 none) =
        reverse_bytes (List.replicate 8 0 ++ (hexlify (List.replicate 7 0)).take 8)) ∧
    7 ≤ int_from_bytes_be (readAt mdfile_v7 0 1) ∧
    (Option.map Md6Result.story_key (md6toN_parse mdfile_v7 none) =
        reverse_bytes (readAt mdfile_v7 0x40 0x10) ∧
      Option.map Md6Result.story_iv (md6toN_parse mdfile_v7 none) =
        reverse_bytes (readAt mdfile_v7 0x50 0x10) ∧
      Option.map Md6Result.bt (md6toN_parse mdfile_v7 none) =
        some (hexlify (List.replicate 7 0) ++ List.replicate 10 0 ++
          (hexlify (List.replicate 7 0)).take 8)) :=
  ⟨by decide,
   (md6toN_story_key_forging mdfile_v6 none (List.replicate 7 0) (by decide) (by decide)).1
     (by decide),
   by decide,
   (md6toN_story_key_forging mdfile_v7 none (List.replicate 7 0) (by decide) (by decide)).2
     (by decide)⟩

/-- C4: a missing key file makes `fetch_keys` fail with `FileNotFoundError`
and leaves `device_key`/`device_iv` of the parsed device empty, while a
present 32-byte key file yields key = ByteReversal of its first 16 bytes and
iv = ByteReversal of its next 16 bytes. -/
theorem keyfile_loader_semantics (content file : List Byte)
    (h32 : content.length = 32)
    (hsome : (md6toN_parse file none).isSome) :
    fetch_keys none = Except.error KeysError.fileNotFound ∧
    Option.map Md6Result.device_key (md6toN_parse file none) = some [] ∧
    Option.map Md6Result.device_iv (md6toN_parse file none) = some [] ∧
    (∃ key iv, fetch_keys (some content) = Except.ok (key, iv) ∧
      reverse_bytes (content.take 16) = some key ∧
      reverse_bytes (content.drop 16) = some iv) := by
  obtain ⟨r, hr⟩ := Option.isSome_iff_exists.mp hsome
  obtain ⟨hk, hi⟩ := md6toN_parse_no_keyfile file r hr
  refine ⟨rfl, ?_, ?_, ?_⟩
  · rw [hr, hk.symm]
    rfl
  · rw [hr, hi.symm]
    rfl
  · have hA4 : (content.take 16).length % 4 = 0 := by
      rw [List.length_take, h32]
      decide
    have hdrop : (content.drop 16).take 16 = content.drop 16 :=
      List.take_of_length_le (by rw [List.length_drop, h32])
    have hB4 : (content.drop 16).length % 4 = 0 := by
      rw [List.length_drop, h32]
    refine ⟨rev_groups (content.take 16), rev_groups (content.drop 16), ?_, ?_, ?_⟩
    · simp only [fetch_keys, hdrop, reverse_bytes_of_mod _ hA4, reverse_bytes_of_mod _ hB4]
    · exact reverse_bytes_of_mod _ hA4
    · exact reverse_bytes_of_mod _ hB4

/-- Witness for C4 at a concrete 32-byte key file of `5`s and the concrete
metadata file `mdfile_v9` parsed with no key file present. -/
theorem keyfile_loader_semantics_witness :
    (List.replicate 32 5 : List Byte).length = 32 ∧
    (fetch_keys none = Except.error KeysError.fileNotFound ∧
     Option.map Md6Result.device_key (md6toN_parse mdfile_v9 none) = some [] ∧
     Option.map Md6Result.device_iv (md6toN_parse mdfile_v9 none) = some [] ∧
     (∃ key iv, fetch_keys (some (List.replicate 32 5)) = Except.ok (key, iv) ∧
       reverse_bytes ((List.replicate 32 5 : List Byte).take 16) = some key ∧
       reverse_bytes ((List.replicate 32 5 : List Byte).drop 16) = some iv)) :=
  ⟨by decide, keyfile_loader_semantics (List.replicate 32 5) mdfile_v9 (by decide) (by decide)⟩

/-- C10: the serial-number string naming the external key file is the
uppercase hex of the serial with every leading `0` character removed
(that is what `snu_str` transcribes from the source), so for a serial of
all-zero bytes the string is empty and the key-file lookup targets the
degenerate name `.keys`. -/
theorem snu_str_zero_serial (n : Nat) :
    snu_str (List.replicate n 0) = [] ∧
    dev_keyfile_name (List.replicate n 0) = [46, 107, 101, 121, 115] := by
  have hs : snu_str (List.replicate n 0) = [] := by
    rw [snu_str, hexlify_replicate_zero, List.map_replicate,
        show upper_ascii 48 = 48 from rfl, dropWhile_eq48_replicate]
  exact ⟨hs, by rw [dev_keyfile_name, hs]; rfl⟩
